import Mathlib

/-!
Shallow embedding of the rusty-8 CHIP-8 interpreter core (src/chip8.rs).

Machine integers are modelled as `Nat` with explicit `% 2^w` where the Rust
code can wrap (u8/u16 wrapping arithmetic in release builds); byte arrays are
modelled as total functions `Nat → Nat` updated pointwise; fallible code
(the fatal `std::process::exit` in `fetch`, `panic!` on unknown opcodes, and
Rust slice-bound panics) is modelled by `Option`: `none` is a fatal fault.
Bit operations on single bits are arithmetised: `& 1` is `% 2`, `x ^ b` on
bits is `(x + b) % 2`, `|=` on bits is `max`, `>> k` is `/ 2 ^ k`.
-/

namespace Rusty8

def MEM_SIZE : Nat := 4096      -- 4Kb of RAM (address range = 0x000 to 0xFFF)
def PROG_OFFSET : Nat := 0x200  -- ROMs are loaded on addr. 0x200

def STACK_START : Nat := 0x000  -- Stack is the first 0x100 bytes of memory
def STACK_END : Nat := 0x0FF

def SPRITES_START : Nat := 0x0FF  -- Sprites start right after stack
def SPRITES_END : Nat := 0x14F    -- Sprites end right before program offset

def SCREEN_WIDTH : Nat := 64
def SCREEN_HEIGHT : Nat := 32

def CHIP8_FONT : List Nat := [
  0xF0, 0x90, 0x90, 0x90, 0xF0,   -- 0
  0x20, 0x60, 0x20, 0x20, 0x70,   -- 1
  0xF0, 0x10, 0xF0, 0x80, 0xF0,   -- 2
  0xF0, 0x10, 0xF0, 0x10, 0xF0,   -- 3
  0x90, 0x90, 0xF0, 0x10, 0x10,   -- 4
  0xF0, 0x80, 0xF0, 0x10, 0xF0,   -- 5
  0xF0, 0x80, 0xF0, 0x90, 0xF0,   -- 6
  0xF0, 0x10, 0x20, 0x40, 0x40,   -- 7
  0xF0, 0x90, 0xF0, 0x90, 0xF0,   -- 8
  0xF0, 0x90, 0xF0, 0x10, 0xF0,   -- 9
  0xF0, 0x90, 0xF0, 0x90, 0x90,   -- a
  0xE0, 0x90, 0xE0, 0x90, 0xE0,   -- b
  0xF0, 0x80, 0x80, 0x80, 0xF0,   -- c
  0xE0, 0x90, 0x90, 0x90, 0xE0,   -- d
  0xF0, 0x80, 0xF0, 0x80, 0xF0,   -- e
  0xF0, 0x80, 0xF0, 0x80, 0x80]   -- f

/-- Pointwise update of a byte array modelled as a function. -/
def upd (f : Nat → Nat) (a v : Nat) : Nat → Nat :=
  fun b => if b = a then v else f b

/-- `copy_from_slice`: write the bytes `bs` starting at address `start`. -/
def writeBytes (f : Nat → Nat) (start : Nat) : List Nat → (Nat → Nat)
  | [] => f
  | b :: rest => writeBytes (upd f start b) (start + 1) rest

/-- `slice.fill(0)` over the half-open address range `[lo, hi)`. -/
def fillRange (f : Nat → Nat) (lo hi : Nat) : Nat → Nat :=
  fun a => if lo ≤ a ∧ a < hi then 0 else f a

/-- `decode`: split a 16-bit instruction word into its four 4-bit nibbles
(`(w & 0xF000) >> 12` is `w / 4096 % 16`, and so on). -/
def decode (opcode : Nat) : Nat × Nat × Nat × Nat :=
  (opcode / 4096 % 16, opcode / 256 % 16, opcode / 16 % 16, opcode % 16)

structure Chip8 where
  memory : Nat → Nat         -- [u8; MEM_SIZE]
  memory_end : Nat           -- end of the loaded ROM
  v : Nat → Nat              -- [u8; 16] general purpose registers
  i : Nat                    -- u16 index register
  pc : Nat                   -- u16 program counter
  sp : Nat                   -- u8 stack pointer
  dt : Nat                   -- u8 delay timer
  st : Nat                   -- u8 sound timer
  keyboard : Nat → Bool      -- [bool; 16]
  waiting : Option Nat       -- register index awaiting a keypress
  screen : Nat → Nat         -- 64*32 bytes, row-major
  screen_updated : Bool

/-- `Chip8::new`: zeroed memory with the font copied into
`memory[SPRITES_START..SPRITES_END]`, PC at the program offset. -/
def Chip8.new : Chip8 where
  memory := writeBytes (fun _ => 0) SPRITES_START CHIP8_FONT
  memory_end := PROG_OFFSET
  v := fun _ => 0
  i := 0
  pc := PROG_OFFSET
  sp := STACK_START
  dt := 0
  st := 0
  keyboard := fun _ => false
  waiting := none
  screen := fun _ => 0
  screen_updated := false

/-- `Chip8::reboot`: zero registers, peripherals, the stack region
`[STACK_START, STACK_END)` and the region past `memory_end`; reset SP and PC.
The loaded ROM bytes and `memory_end` are untouched. -/
def Chip8.reboot (c : Chip8) : Chip8 :=
  { c with
    v := fun _ => 0
    i := 0
    dt := 0
    st := 0
    keyboard := fun _ => false
    waiting := none
    screen := fun _ => 0
    screen_updated := false
    memory := fillRange (fillRange c.memory STACK_START STACK_END) c.memory_end MEM_SIZE
    sp := STACK_START
    pc := PROG_OFFSET }

/-- `Chip8::fetch`: fatal fault (`none`) when `addr` is outside
`[PROG_OFFSET, memory_end)`; otherwise read the big-endian word at `addr`.
The slice `memory[addr..addr+2]` itself panics when `addr + 2 > MEM_SIZE`,
which is also a fatal fault. -/
def Chip8.fetch (c : Chip8) (addr : Nat) : Option Nat :=
  if addr < PROG_OFFSET ∨ c.memory_end ≤ addr then none
  else if addr + 2 ≤ MEM_SIZE then some (c.memory addr * 256 + c.memory (addr + 1))
  else none

/-- `Chip8::tick_timers`: saturating decrement of DT and ST; returns `true`
iff ST was decremented (a tone should play). -/
def Chip8.tick_timers (c : Chip8) : Chip8 × Bool :=
  let c1 := if c.dt > 0 then { c with dt := c.dt - 1 } else c
  if c1.st > 0 then ({ c1 with st := c1.st - 1 }, true) else (c1, false)

/-- `Chip8::answer_key`: if waiting on a register, write the key index into it
and clear the wait marker; otherwise a no-op. -/
def Chip8.answer_key (c : Chip8) (key_pos : Nat) : Chip8 :=
  match c.waiting with
  | some reg_index => { c with v := upd c.v reg_index key_pos, waiting := none }
  | none => c

/-- `Chip8::finished_running`: PC has reached the end of the loaded ROM. -/
def Chip8.finished_running (c : Chip8) : Bool :=
  c.pc = c.memory_end

/-- Inner loop of the DRAW opcode: `for bit_pos in 0..8` with the early
`break` once `pixel_pos` passes `limit_pos` (the end of the current row).
`fuel` counts the remaining iterations, `bitPos` the current bit index.
Returns the updated screen and collision accumulator. -/
def drawBits (screen : Nat → Nat) (collided spritePos limitPos byteV bitPos : Nat) :
    Nat → (Nat → Nat) × Nat
  | 0 => (screen, collided)
  | fuel + 1 =>
    let pixelPos := spritePos + bitPos
    if limitPos ≤ pixelPos then (screen, collided)
    else
      let pixel := screen pixelPos % 2
      let bit := byteV / 2 ^ (7 - bitPos) % 2
      drawBits (upd screen pixelPos ((pixel + bit) % 2 * 255))
        (max collided (pixel * bit)) spritePos limitPos byteV (bitPos + 1) fuel

/-- Outer loop of the DRAW opcode: `for byte in sprite`, with the row
position wrapping modulo 32 after each row. -/
def drawRows (memory screen : Nat → Nat) (collided xPos yPos spriteAddr : Nat) :
    Nat → (Nat → Nat) × Nat
  | 0 => (screen, collided)
  | rows + 1 =>
    let byteV := memory spriteAddr
    let spritePos := xPos + yPos * SCREEN_WIDTH
    let limitPos := (yPos + 1) * SCREEN_WIDTH
    let r := drawBits screen collided spritePos limitPos byteV 0 8
    drawRows memory r.1 r.2 xPos ((yPos + 1) % 32) (spriteAddr + 1) rows

/-- Fx55: `memory[I..=I+x].copy_from_slice(&v[0..=x])` with `count = x + 1`:
writes `memory[start+k] = v k` for `k < count`. -/
def storeRegs (memory v : Nat → Nat) (start : Nat) : Nat → (Nat → Nat)
  | 0 => memory
  | k + 1 => upd (storeRegs memory v start k) (start + k) (v k)

/-- Fx65: `v[0..=x].copy_from_slice(&memory[start..=end])` with
`count = x + 1`: writes `v k = memory (start+k)` for `k < count`. -/
def loadRegs (v memory : Nat → Nat) (start : Nat) : Nat → (Nat → Nat)
  | 0 => v
  | k + 1 => upd (loadRegs v memory start k) k (memory (start + k))

/-- The `(0xF, _, _, _)` arms of the dispatch `match`: the Fx07..Fx65
opcodes, keyed on the low two nibbles, with `x` the second nibble. Any other
low-nibble pair falls through to the `panic!` arm (`none`). -/
def Chip8.execF (c : Chip8) (x y nibble : Nat) : Option Chip8 :=
  if y = 0x0 ∧ nibble = 0x7 then  -- LD Vx, DT
    some { c with v := upd c.v x c.dt }
  else if y = 0x0 ∧ nibble = 0xA then  -- LD Vx, Key: clear keys, enter wait
    some { c with keyboard := fun _ => false, waiting := some x }
  else if y = 0x1 ∧ nibble = 0x5 then  -- LD DT, Vx
    some { c with dt := c.v x }
  else if y = 0x1 ∧ nibble = 0x8 then  -- LD ST, Vx
    some { c with st := c.v x }
  else if y = 0x1 ∧ nibble = 0xE then  -- ADD I, Vx (u16 wrapping)
    some { c with i := (c.i + c.v x) % 65536 }
  else if y = 0x2 ∧ nibble = 0x9 then  -- LD I, Sprite[Vx] (u8 mul wraps)
    some { c with i := SPRITES_START + c.v x * 5 % 256 }
  else if y = 0x3 ∧ nibble = 0x3 then  -- STORE BCD
    if c.i < MEM_SIZE ∧ (c.i + 1) % 65536 < MEM_SIZE ∧ (c.i + 2) % 65536 < MEM_SIZE then
      let m1 := upd c.memory c.i (c.v x / 100 % 10)
      let m2 := upd m1 ((c.i + 1) % 65536) (c.v x / 10 % 10)
      let m3 := upd m2 ((c.i + 2) % 65536) (c.v x % 10)
      some { c with memory := m3 }
    else none
  else if y = 0x5 ∧ nibble = 0x5 then  -- STORE V0..Vx
    if c.i + x + 1 ≤ MEM_SIZE then  -- slice memory[i..=i+x]; panic otherwise
      some { c with memory := storeRegs c.memory c.v c.i (x + 1),
                    i := (c.i + x + 1) % 65536 }
    else none
  else if y = 0x6 ∧ nibble = 0x5 then  -- READ V0..Vx
    if c.i + x + 1 ≤ MEM_SIZE then
      some { c with v := loadRegs c.v c.memory c.i (x + 1),
                    i := (c.i + x + 1) % 65536 }
    else none
  else none

/-- `Chip8::tick`: one fetch-decode-execute cycle. `rand` supplies the byte
drawn from `nanorand::tls_rng()` for the Cxkk opcode. `none` models the
fatal exits: out-of-range fetch, unknown opcode, slice-bound panics and
keyboard index panics. The Rust `match` with literal tuple patterns is an
ordered dispatch, rendered here as an if-chain keyed on the first nibble,
with the `0xF` arms in `execF`. -/
def Chip8.tick (c0 : Chip8) (rand : Nat) : Option Chip8 :=
  let cs := { c0 with screen_updated := false }
  match cs.fetch cs.pc with
  | none => none
  | some instruction =>
    let c := { cs with pc := cs.pc + 2 }
    let nib := decode instruction
    let address := instruction % 4096   -- instruction & 0x0FFF
    let byte := instruction % 256       -- instruction & 0x00FF
    let nibble := nib.2.2.2
    let y := nib.2.2.1
    let x := nib.2.1
    if nib.1 = 0x0 then
      if x = 0x0 ∧ y = 0xE ∧ nibble = 0x0 then    -- CLS
        some { c with screen := fun _ => 0 }
      else if x = 0x0 ∧ y = 0xE ∧ nibble = 0xE then  -- RET
        let sp := (c.sp + 256 - 2) % 256   -- u8 wrapping `sp -= 2`
        some { c with sp := sp, pc := c.memory sp + 256 * c.memory (sp + 1) }
      else none
    else if nib.1 = 0x1 then    -- JP addr
      some { c with pc := address }
    else if nib.1 = 0x2 then    -- CALL addr: push pc little-endian, jump
      let sp := c.sp
      some { c with
        memory := upd (upd c.memory sp (c.pc % 256)) (sp + 1) (c.pc / 256 % 256)
        sp := (sp + 2) % 256
        pc := address }
    else if nib.1 = 0x3 then    -- SE Vx, kk
      some (if c.v x = byte then { c with pc := c.pc + 2 } else c)
    else if nib.1 = 0x4 then    -- SNE Vx, kk
      some (if c.v x ≠ byte then { c with pc := c.pc + 2 } else c)
    else if nib.1 = 0x5 then    -- SE Vx, Vy
      some (if c.v x = c.v y then { c with pc := c.pc + 2 } else c)
    else if nib.1 = 0x6 then    -- LDI Vx, byte
      some { c with v := upd c.v x byte }
    else if nib.1 = 0x7 then    -- ADDI Vx, byte (wrapping_add)
      some { c with v := upd c.v x ((c.v x + byte) % 256) }
    else if nib.1 = 0x8 then
      if nibble = 0x0 then      -- MOV
        some { c with v := upd c.v x (c.v y) }
      else if nibble = 0x1 then -- OR
        some { c with v := upd c.v x (c.v x ||| c.v y) }
      else if nibble = 0x2 then -- AND
        some { c with v := upd c.v x (c.v x &&& c.v y) }
      else if nibble = 0x3 then -- XOR
        some { c with v := upd c.v x (c.v x ^^^ c.v y) }
      else if nibble = 0x4 then -- ADD with carry flag
        some { c with v := upd (upd c.v x ((c.v x + c.v y) % 256))
                             0xF (if 256 ≤ c.v x + c.v y then 1 else 0) }
      else if nibble = 0x5 then -- SUB Vx - Vy, VF = not-borrow
        some { c with v := upd (upd c.v x ((c.v x + 256 - c.v y) % 256))
                             0xF (if c.v x < c.v y then 0 else 1) }
      else if nibble = 0x6 then -- SHR, VF = old lsb
        some { c with v := upd (upd c.v x (c.v x / 2)) 0xF (c.v x % 2) }
      else if nibble = 0x7 then -- SUB Vy - Vx, VF = not-borrow
        some { c with v := upd (upd c.v x ((c.v y + 256 - c.v x) % 256))
                             0xF (if c.v y < c.v x then 0 else 1) }
      else if nibble = 0xE then -- SHL (u8 truncating), VF = old msb
        some { c with v := upd (upd c.v x (c.v x * 2 % 256)) 0xF (c.v x / 128 % 2) }
      else none
    else if nib.1 = 0x9 then    -- SNE Vx, Vy
      some (if c.v x ≠ c.v y then { c with pc := c.pc + 2 } else c)
    else if nib.1 = 0xA then    -- LD I, nnn
      some { c with i := address }
    else if nib.1 = 0xB then    -- JP V0, addr
      some { c with pc := address + c.v 0 }
    else if nib.1 = 0xC then    -- RND Vx, kk
      some { c with v := upd c.v x (rand % 256 &&& byte) }
    else if nib.1 = 0xD then    -- DRAW Vx, Vy, n
      if c.i + nibble ≤ MEM_SIZE then  -- sprite slice memory[i..i+n]; panic otherwise
        let xPos := c.v x % 64
        let yPos := c.v y % 32
        let r := drawRows c.memory c.screen 0 xPos yPos c.i nibble
        some { c with screen := r.1, v := upd c.v 0xF r.2, screen_updated := true }
      else none
    else if nib.1 = 0xE then
      if y = 0x9 ∧ nibble = 0xE then  -- SKP Vx
        if c.v x < 16 then  -- keyboard[vx]; index panic otherwise
          some (if c.keyboard (c.v x) then { c with pc := c.pc + 2 } else c)
        else none
      else if y = 0xA ∧ nibble = 0x1 then  -- SKNP Vx
        if c.v x < 16 then
          some (if c.keyboard (c.v x) = false then { c with pc := c.pc + 2 } else c)
        else none
      else none
    else if nib.1 = 0xF then
      c.execF x y nibble
    else none

/-! ### Basic lemmas about the byte-array combinators -/

theorem upd_apply (f : Nat → Nat) (a v b : Nat) : upd f a v b = if b = a then v else f b := rfl

theorem upd_same (f : Nat → Nat) (a v : Nat) : upd f a v a = v := by simp [upd]

theorem upd_other (f : Nat → Nat) (a v b : Nat) (h : b ≠ a) : upd f a v b = f b := by
  simp [upd, h]

theorem writeBytes_apply (bs : List Nat) (f : Nat → Nat) (start a : Nat) :
    writeBytes f start bs a =
      if start ≤ a ∧ a < start + bs.length then bs.getD (a - start) 0 else f a := by
  induction bs generalizing f start with
  | nil =>
    rw [writeBytes]
    split
    · rename_i h
      simp only [List.length_nil] at h
      omega
    · rfl
  | cons b rest ih =>
    rw [writeBytes, ih]
    rcases Nat.lt_or_ge a (start + 1) with hlt | hge
    · rcases Nat.lt_or_ge a start with h0 | h0
      · have h1 : ¬(start + 1 ≤ a) := by omega
        have h2 : ¬(start ≤ a) := by omega
        simp [h1, h2, upd, show a ≠ start by omega]
      · have ha : a = start := by omega
        subst ha
        simp [upd, List.getD]
    · have h1 : start + 1 ≤ a := hge
      have h2 : start ≤ a := by omega
      by_cases h3 : a < start + 1 + rest.length
      · have h4 : a < start + (rest.length + 1) := by omega
        have h5 : a - start = (a - (start + 1)) + 1 := by omega
        simp only [h1, h2, h3, h4, and_true, if_true, true_and, h5, List.length_cons]
        simp [List.getD]
      · have h4 : ¬(a < start + (rest.length + 1)) := by omega
        simp [h3, h4, upd, show a ≠ start by omega]

theorem fillRange_apply (f : Nat → Nat) (lo hi a : Nat) :
    fillRange f lo hi a = if lo ≤ a ∧ a < hi then 0 else f a := rfl

/-! ### Lemmas about fetch -/

/-- A successful fetch pins the address inside `[PROG_OFFSET, memory_end)`
and inside the memory array. -/
theorem fetch_some_bounds (c : Chip8) (addr w : Nat) (h : c.fetch addr = some w) :
    PROG_OFFSET ≤ addr ∧ addr < c.memory_end ∧ addr + 2 ≤ MEM_SIZE := by
  by_cases h1 : addr < PROG_OFFSET ∨ c.memory_end ≤ addr
  · simp [Chip8.fetch, h1] at h
  · by_cases h2 : addr + 2 ≤ MEM_SIZE
    · push_neg at h1
      exact ⟨h1.1, h1.2, h2⟩
    · simp [Chip8.fetch, h1, h2] at h

/-- Fetch only reads `memory` and `memory_end`. -/
theorem fetch_irrel (c : Chip8) (b : Bool) (addr : Nat) :
    ({ c with screen_updated := b } : Chip8).fetch addr = c.fetch addr := rfl

/-! ### Dispatch lemmas: one `tick` at a decoded opcode -/

/-- 7xkk: wrapping add of the immediate into Vx, nothing else. -/
theorem tick_addi (c : Chip8) (rand x kk : Nat) (hx : x < 16) (hk : kk < 256)
    (hf : c.fetch c.pc = some (0x7000 + 256 * x + kk)) :
    c.tick rand = some { c with screen_updated := false, pc := c.pc + 2,
                                v := upd c.v x ((c.v x + kk) % 256) } := by
  have hf' : ({ c with screen_updated := false } : Chip8).fetch c.pc
      = some (0x7000 + 256 * x + kk) := hf
  have h1 : (0x7000 + 256 * x + kk) / 4096 % 16 = 7 := by omega
  have h2 : (0x7000 + 256 * x + kk) / 256 % 16 = x := by omega
  have h3 : (0x7000 + 256 * x + kk) % 256 = kk := by omega
  simp only [Chip8.tick, hf', decode, h1, h2, h3]
  norm_num

/-- 2nnn: push the incremented PC little-endian at SP, bump SP, jump to nnn. -/
theorem tick_call (c : Chip8) (rand nnn : Nat) (hn : nnn < 4096)
    (hf : c.fetch c.pc = some (0x2000 + nnn)) :
    c.tick rand = some { c with screen_updated := false,
                                memory := upd (upd c.memory c.sp ((c.pc + 2) % 256)) (c.sp + 1)
                                            ((c.pc + 2) / 256 % 256),
                                sp := (c.sp + 2) % 256,
                                pc := nnn } := by
  have hf' : ({ c with screen_updated := false } : Chip8).fetch c.pc
      = some (0x2000 + nnn) := hf
  have h1 : (0x2000 + nnn) / 4096 % 16 = 2 := by omega
  have h2 : (0x2000 + nnn) % 4096 = nnn := by omega
  simp only [Chip8.tick, hf', decode, h1, h2]
  norm_num

/-- 00EE: pop the return address (little-endian) from the stack into PC. -/
theorem tick_ret (c : Chip8) (rand : Nat) (hsp : 2 ≤ c.sp) (hsp2 : c.sp ≤ 255)
    (hf : c.fetch c.pc = some 0x00EE) :
    c.tick rand = some { c with screen_updated := false,
                                sp := c.sp - 2,
                                pc := c.memory (c.sp - 2) + 256 * c.memory (c.sp - 1) } := by
  have hf' : ({ c with screen_updated := false } : Chip8).fetch c.pc = some 0x00EE := hf
  have h1 : (c.sp + 256 - 2) % 256 = c.sp - 2 := by omega
  have h2 : c.sp - 2 + 1 = c.sp - 1 := by omega
  simp only [Chip8.tick, hf', decode, h1, h2]
  norm_num

/-! ### Concrete machines used as demonstration inputs -/

/-- A freshly constructed machine with `prog` loaded at the program offset,
as `load_rom` leaves it. -/
def withProg (prog : List Nat) : Chip8 :=
  { Chip8.new with memory := writeBytes Chip8.new.memory PROG_OFFSET prog,
                   memory_end := PROG_OFFSET + prog.length }

/-! ### C2: fetch fault condition -/

def fetchDemo : Chip8 := withProg [0x61, 0x05, 0x00, 0x00]

/-- C2 counterexample: a fetch from the odd address 0x201, which lies inside
`[0x200, memory_end)`, does NOT fault — it returns the word 0x0500 — so
"a fetch from an odd address inside that range is a fatal fault" is false. -/
theorem fetch_odd_in_range_no_fault :
    fetchDemo.fetch 0x201 = some 0x0500 ∧ 0x201 % 2 = 1 ∧
    PROG_OFFSET ≤ 0x201 ∧ 0x201 < fetchDemo.memory_end := by
  decide

/-- C2 amended: an instruction fetch faults if and only if the address is
outside `[0x200, memory_end)` or the two-byte read would run past the end of
the 4096-byte memory; the parity of the address is never checked. -/
theorem fetch_fault_iff (c : Chip8) (addr : Nat) :
    c.fetch addr = none ↔
      (addr < PROG_OFFSET ∨ c.memory_end ≤ addr ∨ MEM_SIZE < addr + 2) := by
  unfold Chip8.fetch
  split_ifs with h1 h2 <;> simp <;> omega

/-! ### C3: 7xkk applied twice with kk = 0xFF from Vx = 0x01 -/

def addiDemo : Chip8 :=
  { withProg [0x71, 0xFF, 0x71, 0xFF] with v := upd (fun _ => 0) 1 1 }

/-- C3 counterexample: starting from V1 = 0x01, executing `71FF` twice leaves
V1 = 0xFF (not 0x00 as the claim states); VF is unchanged at 0. -/
theorem addi_ff_twice_value :
    Option.map (fun c2 => (c2.v 1, c2.v 0xF)) ((addiDemo.tick 0).bind fun c1 => c1.tick 0)
      = some (0xFF, 0) ∧ (0xFF : Nat) ≠ 0x00 ∧ addiDemo.v 1 = 0x01 := by
  decide

/-- C3 amended: for every starting state with Vx = 0x01 (x ≠ 0xF), executing
`7xFF` twice in succession yields Vx = 0xFF — the first execution wraps
0x01 + 0xFF to 0x00 and the second yields 0xFF — and VF is unchanged. -/
theorem addi_ff_twice (c : Chip8) (x r1 r2 : Nat) (hx : x < 15) (hv : c.v x = 1)
    (hf1 : c.fetch c.pc = some (0x7000 + 256 * x + 0xFF))
    (hf2 : c.fetch (c.pc + 2) = some (0x7000 + 256 * x + 0xFF)) :
    Option.map (fun c2 => (c2.v x, c2.v 0xF)) ((c.tick r1).bind fun c1 => c1.tick r2)
      = some (0xFF, c.v 0xF) := by
  rw [tick_addi c r1 x 0xFF (by omega) (by norm_num) hf1]
  have hf2' : ({ c with screen_updated := false, pc := c.pc + 2,
                        v := upd c.v x ((c.v x + 0xFF) % 256) } : Chip8).fetch (c.pc + 2)
      = some (0x7000 + 256 * x + 0xFF) := hf2
  simp only [Option.some_bind]
  rw [tick_addi _ r2 x 0xFF (by omega) (by norm_num) hf2']
  have hne : ¬((0xF : Nat) = x) := by omega
  simp [upd, hv, hne]

/-- C3 witness: the amended statement holds on the concrete machine
`addiDemo` (V1 = 1, program `71FF 71FF`). -/
theorem addi_ff_twice_witness :
    Option.map (fun c2 => (c2.v 1, c2.v 0xF)) ((addiDemo.tick 0).bind fun c1 => c1.tick 0)
      = some (0xFF, addiDemo.v 0xF) :=
  addi_ff_twice addiDemo 1 0 0 (by norm_num) (by decide) (by decide) (by decide)

/-! ### C1: the wait marker and step()/deliver_key -/

def waitDemo : Chip8 := { withProg [0x61, 0x05] with waiting := some 0 }

/-- C1 counterexample: with the wait marker set (`waiting = some 0`), a call
to `tick` still performs a full fetch-decode-execute cycle: PC advances from
0x200 to 0x202 (and V1 is written by the executed `6105`), contradicting
"calling step() leaves PC and all sixteen V registers unchanged". -/
theorem tick_proceeds_while_waiting :
    waitDemo.waiting = some 0 ∧ waitDemo.pc = 0x200 ∧
    Option.map (fun c => (c.pc, c.v 1)) (waitDemo.tick 0) = some (0x202, 5) ∧
    (0x202 : Nat) ≠ 0x200 := by
  decide

/-- C1 amended: `tick` does not consult the wait marker (it is the host loop
that refrains from stepping while the marker is set); `answer_key` with key
index k while waiting on register r writes k into Vr, clears the marker, and
leaves PC, memory and the other registers unchanged, so the next `tick`
resumes normal execution from the same PC. -/
theorem answer_key_resolves_wait (c : Chip8) (r k : Nat) (h : c.waiting = some r) :
    (c.answer_key k).v r = k ∧ (c.answer_key k).waiting = none ∧
    (c.answer_key k).pc = c.pc ∧ (c.answer_key k).memory = c.memory ∧
    (∀ j, j ≠ r → (c.answer_key k).v j = c.v j) := by
  unfold Chip8.answer_key
  rw [h]
  exact ⟨upd_same _ _ _, rfl, rfl, rfl, fun j hj => upd_other _ _ _ _ hj⟩

/-- C1 witness: resolving the wait on `waitDemo` with key 7. -/
theorem answer_key_resolves_wait_witness :
    (waitDemo.answer_key 7).v 0 = 7 ∧ (waitDemo.answer_key 7).waiting = none ∧
    (waitDemo.answer_key 7).pc = waitDemo.pc ∧
    (waitDemo.answer_key 7).memory = waitDemo.memory ∧
    (∀ j, j ≠ 0 → (waitDemo.answer_key 7).v j = waitDemo.v j) :=
  answer_key_resolves_wait waitDemo 0 7 (by decide)

/-! ### C4: the font sprite table region -/

def fontDemo : Chip8 :=
  { withProg [0xF0, 0x55] with i := 0x100, v := upd (fun _ => 0) 0 0xAB }

/-- C4 counterexample: a single `tick` executing `F055` with I = 0x100
overwrites a byte of the font region: address 0x100 holds 0x90 before and
0xAB afterwards, so the region is not invariant under step(). -/
theorem store_overwrites_font :
    fontDemo.memory 0x100 = 0x90 ∧
    Option.map (fun c => c.memory 0x100) (fontDemo.tick 0) = some 0xAB ∧
    (0xAB : Nat) ≠ 0x90 ∧ SPRITES_START ≤ 0x100 ∧ 0x100 < SPRITES_END := by
  decide

/-- C4 amended: the font table is written once at construction
(`new.memory a = CHIP8_FONT[a - 0x0FF]` on `[0x0FF, 0x14F)`) and is
preserved by `tick_timers`, `answer_key` and — provided `memory_end` is at
least 0x14F, as holds for every machine whose ROM was loaded at 0x200 — by
`reboot`; `tick` however CAN overwrite it via stores addressed into the
region (Fx55, Fx33, or deep stack pushes), per the counterexample. -/
theorem font_region_stable_paths (c : Chip8) (a k : Nat)
    (h1 : SPRITES_START ≤ a) (h2 : a < SPRITES_END) :
    Chip8.new.memory a = CHIP8_FONT.getD (a - SPRITES_START) 0 ∧
    (c.tick_timers).1.memory a = c.memory a ∧
    (c.answer_key k).memory a = c.memory a ∧
    (SPRITES_END ≤ c.memory_end → c.reboot.memory a = c.memory a) := by
  rw [SPRITES_START] at h1
  rw [SPRITES_END] at h2
  refine ⟨?_, ?_, ?_, ?_⟩
  · show writeBytes (fun _ => 0) SPRITES_START CHIP8_FONT a = _
    rw [writeBytes_apply, if_pos]
    constructor
    · rw [SPRITES_START]; omega
    · rw [SPRITES_START]
      show a < 255 + CHIP8_FONT.length
      have hl : CHIP8_FONT.length = 80 := by rfl
      omega
  · unfold Chip8.tick_timers
    split <;> (dsimp only; split <;> rfl)
  · unfold Chip8.answer_key
    cases c.waiting <;> rfl
  · intro hend
    rw [SPRITES_END] at hend
    show fillRange (fillRange c.memory STACK_START STACK_END) c.memory_end MEM_SIZE a
      = c.memory a
    rw [fillRange_apply, if_neg, fillRange_apply, if_neg]
    · rw [STACK_START, STACK_END]; omega
    · rw [MEM_SIZE]; omega

/-- C4 witness: the stability conjuncts at font address 0x100 on a machine
with a loaded ROM. -/
theorem font_region_stable_paths_witness :
    Chip8.new.memory 0x100 = CHIP8_FONT.getD (0x100 - SPRITES_START) 0 ∧
    (addiDemo.tick_timers).1.memory 0x100 = addiDemo.memory 0x100 ∧
    (addiDemo.answer_key 3).memory 0x100 = addiDemo.memory 0x100 ∧
    (SPRITES_END ≤ addiDemo.memory_end → addiDemo.reboot.memory 0x100 = addiDemo.memory 0x100) :=
  font_region_stable_paths addiDemo 0x100 3 (by decide) (by decide)

/-! ### C5: reboot's frame effect -/

/-- C5: reboot leaves the loaded program bytes `[0x200, memory_end)` and
`memory_end` itself unchanged, zeroes the stack region `[0x000, 0x0FF)`, all
sixteen V registers, I, DT, ST, the keypad, the wait marker and the
framebuffer, and resets PC to 0x200 and SP to 0. -/
theorem reboot_resets (c : Chip8) :
    (∀ a, PROG_OFFSET ≤ a → a < c.memory_end → c.reboot.memory a = c.memory a) ∧
    c.reboot.memory_end = c.memory_end ∧
    (∀ a, a < STACK_END → c.reboot.memory a = 0) ∧
    (∀ j, c.reboot.v j = 0) ∧
    c.reboot.i = 0 ∧ c.reboot.dt = 0 ∧ c.reboot.st = 0 ∧
    (∀ j, c.reboot.keyboard j = false) ∧
    c.reboot.waiting = none ∧
    (∀ p, c.reboot.screen p = 0) ∧
    c.reboot.pc = PROG_OFFSET ∧ c.reboot.sp = STACK_START := by
  refine ⟨?_, rfl, ?_, fun _ => rfl, rfl, rfl, rfl, fun _ => rfl, rfl, fun _ => rfl, rfl, rfl⟩
  · intro a hlo hhi
    rw [PROG_OFFSET] at hlo
    show fillRange (fillRange c.memory STACK_START STACK_END) c.memory_end MEM_SIZE a
      = c.memory a
    rw [fillRange_apply, if_neg, fillRange_apply, if_neg]
    · rw [STACK_START, STACK_END]; omega
    · omega
  · intro a hhi
    rw [STACK_END] at hhi
    show fillRange (fillRange c.memory STACK_START STACK_END) c.memory_end MEM_SIZE a
      = 0
    rw [fillRange_apply]
    split
    · rfl
    · rw [fillRange_apply, if_pos]
      rw [STACK_START, STACK_END]; omega

def rebootDemo : Chip8 :=
  { withProg [0x71, 0xFF] with sp := 4, dt := 7, st := 9, i := 33,
                               screen := fun _ => 255, screen_updated := true,
                               waiting := some 3 }

/-- C5 witness: sampled consequences of `reboot_resets` on a dirtied
concrete machine. -/
theorem reboot_resets_witness :
    rebootDemo.reboot.memory 0x200 = rebootDemo.memory 0x200 ∧
    rebootDemo.reboot.memory 5 = 0 ∧
    rebootDemo.reboot.v 3 = 0 ∧
    rebootDemo.reboot.pc = PROG_OFFSET := by
  have h := reboot_resets rebootDemo
  exact ⟨h.1 0x200 (by decide) (by decide), h.2.2.1 5 (by decide),
         h.2.2.2.1 3, h.2.2.2.2.2.2.2.2.2.2.1⟩

/-- A fetch with the address strictly inside the loaded program succeeds and
returns the big-endian word at that address. -/
theorem fetch_of (c : Chip8) (addr : Nat) (h1 : PROG_OFFSET ≤ addr)
    (h2 : addr < c.memory_end) (h3 : addr + 2 ≤ MEM_SIZE) :
    c.fetch addr = some (c.memory addr * 256 + c.memory (addr + 1)) := by
  unfold Chip8.fetch
  rw [if_neg, if_pos h3]
  omega

/-! ### C6: CALL immediately followed by RET restores PC + 2 -/

/-- C6: from a state whose next instruction is `2nnn` (with SP small enough
not to wrap and `nnn` the address of a `00EE` inside the ROM), executing the
CALL and then the RET leaves PC at the address just after the CALL. -/
theorem call_then_ret_pc (c : Chip8) (r1 r2 nnn : Nat)
    (hend : c.memory_end ≤ MEM_SIZE) (hsp : c.sp ≤ 253)
    (hlo : PROG_OFFSET ≤ nnn) (hhi : nnn + 2 ≤ c.memory_end)
    (hf : c.fetch c.pc = some (0x2000 + nnn))
    (hr0 : c.memory nnn = 0x00) (hr1 : c.memory (nnn + 1) = 0xEE) :
    Option.map Chip8.pc ((c.tick r1).bind fun c1 => c1.tick r2) = some (c.pc + 2) := by
  have hb := fetch_some_bounds c c.pc _ hf
  rw [PROG_OFFSET] at hb hlo
  rw [MEM_SIZE] at hb hend
  have hn : nnn < 4096 := by omega
  rw [tick_call c r1 nnn hn hf]
  simp only [Option.some_bind]
  have hnsp1 : nnn ≠ c.sp + 1 := by omega
  have hnsp0 : nnn ≠ c.sp := by omega
  have hfret :
      ({ c with screen_updated := false,
                memory := upd (upd c.memory c.sp ((c.pc + 2) % 256)) (c.sp + 1)
                            ((c.pc + 2) / 256 % 256),
                sp := (c.sp + 2) % 256,
                pc := nnn } : Chip8).fetch nnn = some 0x00EE := by
    rw [fetch_of]
    · dsimp only
      rw [upd_other _ _ _ _ hnsp1, upd_other _ _ _ _ hnsp0,
          upd_other _ _ _ _ (by omega : nnn + 1 ≠ c.sp + 1),
          upd_other _ _ _ _ (by omega : nnn + 1 ≠ c.sp), hr0, hr1]
    · rw [PROG_OFFSET]; omega
    · dsimp only; omega
    · rw [MEM_SIZE]; omega
  have hsp2 : (2 : Nat) ≤ (c.sp + 2) % 256 := by omega
  have hsp3 : (c.sp + 2) % 256 ≤ 255 := by omega
  rw [tick_ret _ r2 hsp2 hsp3 hfret]
  simp only [Option.map_some']
  have e2 : (c.sp + 2) % 256 - 2 = c.sp := by omega
  have e1 : (c.sp + 2) % 256 - 1 = c.sp + 1 := by omega
  rw [e2, e1, upd_same, upd_other _ _ _ _ (by omega : c.sp ≠ c.sp + 1), upd_same]
  exact congrArg some (by omega)

def callDemo : Chip8 := withProg [0x22, 0x06, 0x00, 0x00, 0x00, 0x00, 0x00, 0xEE]

/-- C6 witness: `2206` at 0x200 calling a `00EE` at 0x206 returns PC to
0x202. -/
theorem call_then_ret_pc_witness :
    Option.map Chip8.pc ((callDemo.tick 0).bind fun c1 => c1.tick 0)
      = some (callDemo.pc + 2) :=
  call_then_ret_pc callDemo 0 0 0x206 (by decide) (by decide) (by decide) (by decide)
    (by decide) (by decide) (by decide)

/-- 00E0: clear the screen; note `screen_updated` is left `false`. -/
theorem tick_cls (c : Chip8) (rand : Nat) (hf : c.fetch c.pc = some 0x00E0) :
    c.tick rand = some { c with screen_updated := false, pc := c.pc + 2,
                                screen := fun _ => 0 } := by
  have hf' : ({ c with screen_updated := false } : Chip8).fetch c.pc = some 0x00E0 := hf
  simp only [Chip8.tick, hf', decode]
  norm_num

/-- Case analysis on an `if` equation without rewriting the enclosing term. -/
theorem ite_eq_cases {α : Sort 1} {P : Prop} [Decidable P] {A B r : α}
    (h : (if P then A else B) = r) : (P ∧ A = r) ∨ (¬P ∧ B = r) := by
  by_cases hp : P
  · rw [if_pos hp] at h
    exact Or.inl ⟨hp, h⟩
  · rw [if_neg hp] at h
    exact Or.inr ⟨hp, h⟩

/-- None of the F-opcode arms touches `screen_updated`. -/
theorem execF_screen_updated (c : Chip8) (x y n : Nat) (c' : Chip8)
    (h : c.execF x y n = some c') : c'.screen_updated = c.screen_updated := by
  unfold Chip8.execF at h
  rcases ite_eq_cases h with ⟨-, h⟩ | ⟨-, h⟩
  · injection h with h; subst h; rfl
  rcases ite_eq_cases h with ⟨-, h⟩ | ⟨-, h⟩
  · injection h with h; subst h; rfl
  rcases ite_eq_cases h with ⟨-, h⟩ | ⟨-, h⟩
  · injection h with h; subst h; rfl
  rcases ite_eq_cases h with ⟨-, h⟩ | ⟨-, h⟩
  · injection h with h; subst h; rfl
  rcases ite_eq_cases h with ⟨-, h⟩ | ⟨-, h⟩
  · injection h with h; subst h; rfl
  rcases ite_eq_cases h with ⟨-, h⟩ | ⟨-, h⟩
  · injection h with h; subst h; rfl
  rcases ite_eq_cases h with ⟨-, h⟩ | ⟨-, h⟩
  · rcases ite_eq_cases h with ⟨-, h⟩ | ⟨-, h⟩
    · injection h with h; subst h; rfl
    · exact Option.noConfusion h
  rcases ite_eq_cases h with ⟨-, h⟩ | ⟨-, h⟩
  · rcases ite_eq_cases h with ⟨-, h⟩ | ⟨-, h⟩
    · injection h with h; subst h; rfl
    · exact Option.noConfusion h
  rcases ite_eq_cases h with ⟨-, h⟩ | ⟨-, h⟩
  · rcases ite_eq_cases h with ⟨-, h⟩ | ⟨-, h⟩
    · injection h with h; subst h; rfl
    · exact Option.noConfusion h
  exact Option.noConfusion h

set_option maxHeartbeats 2000000

/-- Across the whole dispatch table, a completed `tick` reports
`screen_updated = true` exactly when the executed opcode was a `Dxyn`. -/
theorem tick_screen_updated (c : Chip8) (rand w : Nat) (c' : Chip8)
    (hf : c.fetch c.pc = some w) (ht : c.tick rand = some c') :
    c'.screen_updated = true ↔ (decode w).1 = 0xD := by
  have hf' : ({ c with screen_updated := false } : Chip8).fetch c.pc = some w := hf
  have hlt : (decode w).1 < 16 := Nat.mod_lt _ (by norm_num)
  have hcases : (decode w).1 = 0 ∨ (decode w).1 = 1 ∨ (decode w).1 = 2 ∨ (decode w).1 = 3 ∨
      (decode w).1 = 4 ∨ (decode w).1 = 5 ∨ (decode w).1 = 6 ∨ (decode w).1 = 7 ∨
      (decode w).1 = 8 ∨ (decode w).1 = 9 ∨ (decode w).1 = 10 ∨ (decode w).1 = 11 ∨
      (decode w).1 = 12 ∨ (decode w).1 = 13 ∨ (decode w).1 = 14 ∨ (decode w).1 = 15 := by
    omega
  rcases hcases with hq|hq|hq|hq|hq|hq|hq|hq|hq|hq|hq|hq|hq|hq|hq|hq <;>
    simp only [Chip8.tick, hf', hq] at ht <;> norm_num at ht
  · -- 0x0: CLS, RET or unknown
    rcases ite_eq_cases ht with ⟨-, ht⟩ | ⟨-, ht⟩
    · injection ht with ht; subst ht
      exact Iff.intro (fun hh => absurd hh Bool.false_ne_true) (fun hh => absurd hh (by omega))
    rcases ite_eq_cases ht with ⟨-, ht⟩ | ⟨-, ht⟩
    · injection ht with ht; subst ht
      exact Iff.intro (fun hh => absurd hh Bool.false_ne_true) (fun hh => absurd hh (by omega))
    exact Option.noConfusion ht
  · -- 0x1 JP
    subst ht
    exact Iff.intro (fun hh => absurd hh Bool.false_ne_true) (fun hh => absurd hh (by omega))
  · -- 0x2 CALL
    subst ht
    exact Iff.intro (fun hh => absurd hh Bool.false_ne_true) (fun hh => absurd hh (by omega))
  · -- 0x3 SE
    rcases ite_eq_cases ht with ⟨-, ht⟩ | ⟨-, ht⟩ <;>
      subst ht <;>
      exact Iff.intro (fun hh => absurd hh Bool.false_ne_true) (fun hh => absurd hh (by omega))
  · -- 0x4 SNE
    rcases ite_eq_cases ht with ⟨-, ht⟩ | ⟨-, ht⟩ <;>
      subst ht <;>
      exact Iff.intro (fun hh => absurd hh Bool.false_ne_true) (fun hh => absurd hh (by omega))
  · -- 0x5 SE Vx Vy
    rcases ite_eq_cases ht with ⟨-, ht⟩ | ⟨-, ht⟩ <;>
      subst ht <;>
      exact Iff.intro (fun hh => absurd hh Bool.false_ne_true) (fun hh => absurd hh (by omega))
  · -- 0x6 LDI
    subst ht
    exact Iff.intro (fun hh => absurd hh Bool.false_ne_true) (fun hh => absurd hh (by omega))
  · -- 0x7 ADDI
    subst ht
    exact Iff.intro (fun hh => absurd hh Bool.false_ne_true) (fun hh => absurd hh (by omega))
  · -- 0x8 ALU block
    rcases ite_eq_cases ht with ⟨-, ht⟩ | ⟨-, ht⟩
    · injection ht with ht; subst ht
      exact Iff.intro (fun hh => absurd hh Bool.false_ne_true) (fun hh => absurd hh (by omega))
    rcases ite_eq_cases ht with ⟨-, ht⟩ | ⟨-, ht⟩
    · injection ht with ht; subst ht
      exact Iff.intro (fun hh => absurd hh Bool.false_ne_true) (fun hh => absurd hh (by omega))
    rcases ite_eq_cases ht with ⟨-, ht⟩ | ⟨-, ht⟩
    · injection ht with ht; subst ht
      exact Iff.intro (fun hh => absurd hh Bool.false_ne_true) (fun hh => absurd hh (by omega))
    rcases ite_eq_cases ht with ⟨-, ht⟩ | ⟨-, ht⟩
    · injection ht with ht; subst ht
      exact Iff.intro (fun hh => absurd hh Bool.false_ne_true) (fun hh => absurd hh (by omega))
    rcases ite_eq_cases ht with ⟨-, ht⟩ | ⟨-, ht⟩
    · injection ht with ht; subst ht
      exact Iff.intro (fun hh => absurd hh Bool.false_ne_true) (fun hh => absurd hh (by omega))
    rcases ite_eq_cases ht with ⟨-, ht⟩ | ⟨-, ht⟩
    · injection ht with ht; subst ht
      exact Iff.intro (fun hh => absurd hh Bool.false_ne_true) (fun hh => absurd hh (by omega))
    rcases ite_eq_cases ht with ⟨-, ht⟩ | ⟨-, ht⟩
    · injection ht with ht; subst ht
      exact Iff.intro (fun hh => absurd hh Bool.false_ne_true) (fun hh => absurd hh (by omega))
    rcases ite_eq_cases ht with ⟨-, ht⟩ | ⟨-, ht⟩
    · injection ht with ht; subst ht
      exact Iff.intro (fun hh => absurd hh Bool.false_ne_true) (fun hh => absurd hh (by omega))
    rcases ite_eq_cases ht with ⟨-, ht⟩ | ⟨-, ht⟩
    · injection ht with ht; subst ht
      exact Iff.intro (fun hh => absurd hh Bool.false_ne_true) (fun hh => absurd hh (by omega))
    exact Option.noConfusion ht
  · -- 0x9 SNE Vx Vy
    rcases ite_eq_cases ht with ⟨-, ht⟩ | ⟨-, ht⟩ <;>
      subst ht <;>
      exact Iff.intro (fun hh => absurd hh Bool.false_ne_true) (fun hh => absurd hh (by omega))
  · -- 0xA LD I
    subst ht
    exact Iff.intro (fun hh => absurd hh Bool.false_ne_true) (fun hh => absurd hh (by omega))
  · -- 0xB JP V0
    subst ht
    exact Iff.intro (fun hh => absurd hh Bool.false_ne_true) (fun hh => absurd hh (by omega))
  · -- 0xC RND
    subst ht
    exact Iff.intro (fun hh => absurd hh Bool.false_ne_true) (fun hh => absurd hh (by omega))
  · -- 0xD DRAW: the only arm that sets the flag
    obtain ⟨-, ht⟩ := ht
    subst ht
    exact Iff.intro (fun _ => hq) (fun _ => rfl)
  · -- 0xE key skips
    rcases ite_eq_cases ht with ⟨-, ht⟩ | ⟨-, ht⟩
    · rcases ite_eq_cases ht with ⟨-, ht⟩ | ⟨-, ht⟩
      · injection ht with ht
        rcases ite_eq_cases ht with ⟨-, ht⟩ | ⟨-, ht⟩ <;>
          subst ht <;>
          exact Iff.intro (fun hh => absurd hh Bool.false_ne_true) (fun hh => absurd hh (by omega))
      · exact Option.noConfusion ht
    rcases ite_eq_cases ht with ⟨-, ht⟩ | ⟨-, ht⟩
    · rcases ite_eq_cases ht with ⟨-, ht⟩ | ⟨-, ht⟩
      · injection ht with ht
        rcases ite_eq_cases ht with ⟨-, ht⟩ | ⟨-, ht⟩ <;>
          subst ht <;>
          exact Iff.intro (fun hh => absurd hh Bool.false_ne_true) (fun hh => absurd hh (by omega))
      · exact Option.noConfusion ht
    exact Option.noConfusion ht
  · -- 0xF block, via execF_screen_updated
    rw [execF_screen_updated _ _ _ _ _ ht, hq]
    simp

set_option maxHeartbeats 200000

/-- Dxyn with the sprite slice in bounds: PC advances, the framebuffer and
VF are produced by `drawRows`, and the update flag is raised. -/
theorem tick_draw (c : Chip8) (rand x y n : Nat) (hx : x < 16) (hy : y < 16)
    (hn : n < 16) (hb : c.i + n ≤ MEM_SIZE)
    (hf : c.fetch c.pc = some (0xD000 + 256 * x + 16 * y + n)) :
    c.tick rand = some { c with screen_updated := true, pc := c.pc + 2,
                                v := upd c.v 0xF (drawRows c.memory c.screen 0
                                       (c.v x % 64) (c.v y % 32) c.i n).2,
                                screen := (drawRows c.memory c.screen 0
                                       (c.v x % 64) (c.v y % 32) c.i n).1 } := by
  have hf' : ({ c with screen_updated := false } : Chip8).fetch c.pc
      = some (0xD000 + 256 * x + 16 * y + n) := hf
  have h1 : (0xD000 + 256 * x + 16 * y + n) / 4096 % 16 = 13 := by omega
  have h2 : (0xD000 + 256 * x + 16 * y + n) / 256 % 16 = x := by omega
  have h3 : (0xD000 + 256 * x + 16 * y + n) / 16 % 16 = y := by omega
  have h4 : (0xD000 + 256 * x + 16 * y + n) % 16 = n := by omega
  simp only [Chip8.tick, hf', decode, h1, h2, h3, h4]
  norm_num [hb]

/-- Dxyn with the sprite slice out of bounds: the machine faults. -/
theorem tick_draw_none (c : Chip8) (rand x y n : Nat) (hx : x < 16) (hy : y < 16)
    (hn : n < 16) (hb : ¬(c.i + n ≤ MEM_SIZE))
    (hf : c.fetch c.pc = some (0xD000 + 256 * x + 16 * y + n)) :
    c.tick rand = none := by
  have hf' : ({ c with screen_updated := false } : Chip8).fetch c.pc
      = some (0xD000 + 256 * x + 16 * y + n) := hf
  have h1 : (0xD000 + 256 * x + 16 * y + n) / 4096 % 16 = 13 := by omega
  have h4 : (0xD000 + 256 * x + 16 * y + n) % 16 = n := by omega
  simp only [Chip8.tick, hf', decode, h1, h4]
  norm_num [hb]

/-- Fx33 with `[I, I+2]` in bounds: the BCD digits of Vx are stored there. -/
theorem tick_bcd (c : Chip8) (rand x : Nat) (hx : x < 16) (hb : c.i + 3 ≤ MEM_SIZE)
    (hf : c.fetch c.pc = some (0xF033 + 256 * x)) :
    c.tick rand = some { c with screen_updated := false, pc := c.pc + 2,
                                memory := upd (upd (upd c.memory c.i (c.v x / 100 % 10))
                                            (c.i + 1) (c.v x / 10 % 10))
                                          (c.i + 2) (c.v x % 10) } := by
  have hf' : ({ c with screen_updated := false } : Chip8).fetch c.pc
      = some (0xF033 + 256 * x) := hf
  have h1 : (0xF033 + 256 * x) / 4096 % 16 = 15 := by omega
  have h2 : (0xF033 + 256 * x) / 256 % 16 = x := by omega
  have h3 : (0xF033 + 256 * x) / 16 % 16 = 3 := by omega
  have h4 : (0xF033 + 256 * x) % 16 = 3 := by omega
  have e1 : (c.i + 1) % 65536 = c.i + 1 := by
    rw [MEM_SIZE] at hb; omega
  have e2 : (c.i + 2) % 65536 = c.i + 2 := by
    rw [MEM_SIZE] at hb; omega
  have hcond : c.i < MEM_SIZE ∧ (c.i + 1) % 65536 < MEM_SIZE ∧ (c.i + 2) % 65536 < MEM_SIZE := by
    rw [MEM_SIZE] at hb ⊢; omega
  simp only [Chip8.tick, Chip8.execF, hf', decode, h1, h2, h3, h4, e1, e2]
  norm_num [hcond.1, hcond.2.1, hcond.2.2, e1, e2]
  intro hcontra
  exfalso
  rw [MEM_SIZE] at hb hcontra
  omega

/-- Fx33 with the BCD target out of bounds: the machine faults. -/
theorem tick_bcd_none (c : Chip8) (rand x : Nat) (hx : x < 16) (hb : ¬(c.i + 3 ≤ MEM_SIZE))
    (hf : c.fetch c.pc = some (0xF033 + 256 * x)) :
    c.tick rand = none := by
  have hf' : ({ c with screen_updated := false } : Chip8).fetch c.pc
      = some (0xF033 + 256 * x) := hf
  have h1 : (0xF033 + 256 * x) / 4096 % 16 = 15 := by omega
  have h2 : (0xF033 + 256 * x) / 256 % 16 = x := by omega
  have h3 : (0xF033 + 256 * x) / 16 % 16 = 3 := by omega
  have h4 : (0xF033 + 256 * x) % 16 = 3 := by omega
  have hcond : ¬(c.i < MEM_SIZE ∧ (c.i + 1) % 65536 < MEM_SIZE ∧ (c.i + 2) % 65536 < MEM_SIZE) := by
    rw [MEM_SIZE] at hb ⊢; omega
  simp only [Chip8.tick, Chip8.execF, hf', decode, h1, h2, h3, h4]
  norm_num [hcond]

/-- Fx55 with the register window in bounds: V0..Vx are stored at I and I is
bumped past the window. -/
theorem tick_store (c : Chip8) (rand x : Nat) (hx : x < 16) (hb : c.i + x + 1 ≤ MEM_SIZE)
    (hf : c.fetch c.pc = some (0xF055 + 256 * x)) :
    c.tick rand = some { c with screen_updated := false, pc := c.pc + 2,
                                memory := storeRegs c.memory c.v c.i (x + 1),
                                i := (c.i + x + 1) % 65536 } := by
  have hf' : ({ c with screen_updated := false } : Chip8).fetch c.pc
      = some (0xF055 + 256 * x) := hf
  have h1 : (0xF055 + 256 * x) / 4096 % 16 = 15 := by omega
  have h2 : (0xF055 + 256 * x) / 256 % 16 = x := by omega
  have h3 : (0xF055 + 256 * x) / 16 % 16 = 5 := by omega
  have h4 : (0xF055 + 256 * x) % 16 = 5 := by omega
  simp only [Chip8.tick, Chip8.execF, hf', decode, h1, h2, h3, h4]
  norm_num [hb]

/-- Fx55 with the register window out of bounds: the machine faults. -/
theorem tick_store_none (c : Chip8) (rand x : Nat) (hx : x < 16)
    (hb : ¬(c.i + x + 1 ≤ MEM_SIZE)) (hf : c.fetch c.pc = some (0xF055 + 256 * x)) :
    c.tick rand = none := by
  have hf' : ({ c with screen_updated := false } : Chip8).fetch c.pc
      = some (0xF055 + 256 * x) := hf
  have h1 : (0xF055 + 256 * x) / 4096 % 16 = 15 := by omega
  have h2 : (0xF055 + 256 * x) / 256 % 16 = x := by omega
  have h3 : (0xF055 + 256 * x) / 16 % 16 = 5 := by omega
  have h4 : (0xF055 + 256 * x) % 16 = 5 := by omega
  simp only [Chip8.tick, Chip8.execF, hf', decode, h1, h2, h3, h4]
  norm_num [hb]

/-- Fx65 with the register window in bounds: V0..Vx are loaded from I and I
is bumped past the window. -/
theorem tick_load (c : Chip8) (rand x : Nat) (hx : x < 16) (hb : c.i + x + 1 ≤ MEM_SIZE)
    (hf : c.fetch c.pc = some (0xF065 + 256 * x)) :
    c.tick rand = some { c with screen_updated := false, pc := c.pc + 2,
                                v := loadRegs c.v c.memory c.i (x + 1),
                                i := (c.i + x + 1) % 65536 } := by
  have hf' : ({ c with screen_updated := false } : Chip8).fetch c.pc
      = some (0xF065 + 256 * x) := hf
  have h1 : (0xF065 + 256 * x) / 4096 % 16 = 15 := by omega
  have h2 : (0xF065 + 256 * x) / 256 % 16 = x := by omega
  have h3 : (0xF065 + 256 * x) / 16 % 16 = 6 := by omega
  have h4 : (0xF065 + 256 * x) % 16 = 5 := by omega
  simp only [Chip8.tick, Chip8.execF, hf', decode, h1, h2, h3, h4]
  norm_num [hb]

/-- Fx65 with the register window out of bounds: the machine faults. -/
theorem tick_load_none (c : Chip8) (rand x : Nat) (hx : x < 16)
    (hb : ¬(c.i + x + 1 ≤ MEM_SIZE)) (hf : c.fetch c.pc = some (0xF065 + 256 * x)) :
    c.tick rand = none := by
  have hf' : ({ c with screen_updated := false } : Chip8).fetch c.pc
      = some (0xF065 + 256 * x) := hf
  have h1 : (0xF065 + 256 * x) / 4096 % 16 = 15 := by omega
  have h2 : (0xF065 + 256 * x) / 256 % 16 = x := by omega
  have h3 : (0xF065 + 256 * x) / 16 % 16 = 6 := by omega
  have h4 : (0xF065 + 256 * x) % 16 = 5 := by omega
  simp only [Chip8.tick, Chip8.execF, hf', decode, h1, h2, h3, h4]
  norm_num [hb]

/-! ### C9: 00E0 clears the screen without raising the update flag -/

/-- C9: a step executing `00E0` zeroes every framebuffer pixel yet ends with
`screen_updated = false` (the host is not notified); across the entire
dispatch table a completed step ends with `screen_updated = true` exactly
when the executed opcode was a draw `Dxyn`. -/
theorem cls_no_update_flag :
    (∀ (c : Chip8) (rand : Nat), c.fetch c.pc = some 0x00E0 →
       ∀ c', c.tick rand = some c' →
         (∀ p, c'.screen p = 0) ∧ c'.screen_updated = false) ∧
    (∀ (c : Chip8) (rand w : Nat) (c' : Chip8), c.fetch c.pc = some w →
       c.tick rand = some c' → (c'.screen_updated = true ↔ (decode w).1 = 0xD)) := by
  constructor
  · intro c rand hf c' ht
    rw [tick_cls c rand hf] at ht
    injection ht with ht
    subst ht
    exact ⟨fun p => rfl, rfl⟩
  · intro c rand w c' hf ht
    exact tick_screen_updated c rand w c' hf ht

def clsDemo : Chip8 :=
  { withProg [0x00, 0xE0] with screen := fun _ => 255, screen_updated := true }

def clsDemoAfter : Chip8 :=
  { clsDemo with screen_updated := false, pc := clsDemo.pc + 2, screen := fun _ => 0 }

/-- C9 witness: executing the `00E0` at 0x200 of `clsDemo` clears pixel 0 and
leaves the update flag down. -/
theorem cls_no_update_flag_witness :
    clsDemoAfter.screen 0 = 0 ∧ clsDemoAfter.screen_updated = false ∧
    ¬(clsDemoAfter.screen_updated = true) := by
  have ht : clsDemo.tick 0 = some clsDemoAfter := tick_cls clsDemo 0 (by decide)
  obtain ⟨hs, hu⟩ := cls_no_update_flag.1 clsDemo 0 (by decide) clsDemoAfter ht
  have hiff := cls_no_update_flag.2 clsDemo 0 0x00E0 clsDemoAfter (by decide) ht
  refine ⟨hs 0, hu, fun htrue => ?_⟩
  have h13 := hiff.mp htrue
  exact absurd h13 (by decide)

/-! ### C10: memory accesses of Dxyn / Fx33 / Fx55 / Fx65 -/

/-- C10: each of Dxyn, Fx33, Fx55, Fx65 addresses memory at the full 16-bit
value of I (no masking, no bounds check before the access), and the whole
operation stays within the 4096-byte memory — i.e. the step completes
instead of faulting — exactly under the precondition `I + L ≤ 4096`, with
L = n, 3, x+1, x+1 respectively. -/
theorem mem_access_in_bounds_iff :
    (∀ (c : Chip8) (rand x y n : Nat), x < 16 → y < 16 → n < 16 →
       c.fetch c.pc = some (0xD000 + 256 * x + 16 * y + n) →
       (c.tick rand ≠ none ↔ c.i + n ≤ 4096)) ∧
    (∀ (c : Chip8) (rand x : Nat), x < 16 →
       c.fetch c.pc = some (0xF033 + 256 * x) →
       (c.tick rand ≠ none ↔ c.i + 3 ≤ 4096)) ∧
    (∀ (c : Chip8) (rand x : Nat), x < 16 →
       c.fetch c.pc = some (0xF055 + 256 * x) →
       (c.tick rand ≠ none ↔ c.i + (x + 1) ≤ 4096)) ∧
    (∀ (c : Chip8) (rand x : Nat), x < 16 →
       c.fetch c.pc = some (0xF065 + 256 * x) →
       (c.tick rand ≠ none ↔ c.i + (x + 1) ≤ 4096)) := by
  have hms : MEM_SIZE = 4096 := rfl
  refine ⟨?_, ?_, ?_, ?_⟩
  · intro c rand x y n hx hy hn hf
    constructor
    · intro hne
      by_contra hnb
      exact hne (tick_draw_none c rand x y n hx hy hn (by rw [hms]; exact hnb) hf)
    · intro hb
      rw [tick_draw c rand x y n hx hy hn (by rw [hms]; exact hb) hf]
      simp
  · intro c rand x hx hf
    constructor
    · intro hne
      by_contra hnb
      exact hne (tick_bcd_none c rand x hx (by rw [hms]; exact hnb) hf)
    · intro hb
      rw [tick_bcd c rand x hx (by rw [hms]; exact hb) hf]
      simp
  · intro c rand x hx hf
    constructor
    · intro hne
      by_contra hnb
      exact hne (tick_store_none c rand x hx (by rw [hms]; omega) hf)
    · intro hb
      rw [tick_store c rand x hx (by rw [hms]; omega) hf]
      simp
  · intro c rand x hx hf
    constructor
    · intro hne
      by_contra hnb
      exact hne (tick_load_none c rand x hx (by rw [hms]; omega) hf)
    · intro hb
      rw [tick_load c rand x hx (by rw [hms]; omega) hf]
      simp

/-- C10 witness: the Fx55 conjunct applied to `fontDemo` (opcode `F055`,
I = 0x100): the step completes and indeed 0x100 + 1 ≤ 4096. -/
theorem mem_access_in_bounds_iff_witness :
    (fontDemo.tick 0 ≠ none ↔ fontDemo.i + (0 + 1) ≤ 4096) ∧
    fontDemo.i + (0 + 1) ≤ 4096 :=
  ⟨mem_access_in_bounds_iff.2.2.1 fontDemo 0 0 (by norm_num) (by decide), by decide⟩

/-! ### The draw algorithm: pointwise characterisation and collision -/

/-- Pointwise effect of the inner draw loop: position `p` is XOR-painted
exactly when it lies in the un-clipped window
`[sp + bitPos, min (sp + bitPos + fuel) limit)`. -/
theorem drawBits_screen (fuel : Nat) :
    ∀ (screen : Nat → Nat) (col sp limit b bitPos p : Nat),
      (drawBits screen col sp limit b bitPos fuel).1 p =
        if sp + bitPos ≤ p ∧ p < sp + bitPos + fuel ∧ p < limit then
          (screen p % 2 + b / 2 ^ (7 - (p - sp)) % 2) % 2 * 255
        else screen p := by
  induction fuel with
  | zero =>
    intro screen col sp limit b bitPos p
    rw [drawBits]
    have hno : ¬(sp + bitPos ≤ p ∧ p < sp + bitPos + 0 ∧ p < limit) := by omega
    rw [if_neg hno]
  | succ fuel ih =>
    intro screen col sp limit b bitPos p
    simp only [drawBits]
    by_cases hbreak : limit ≤ sp + bitPos
    · rw [if_pos hbreak]
      have hno : ¬(sp + bitPos ≤ p ∧ p < sp + bitPos + (fuel + 1) ∧ p < limit) := by omega
      rw [if_neg hno]
    · rw [if_neg hbreak]
      rw [ih]
      by_cases hp : p = sp + bitPos
      · subst hp
        have hc1 : ¬(sp + (bitPos + 1) ≤ sp + bitPos ∧
            sp + bitPos < sp + (bitPos + 1) + fuel ∧ sp + bitPos < limit) := by omega
        rw [if_neg hc1, upd_same]
        have hc2 : sp + bitPos ≤ sp + bitPos ∧
            sp + bitPos < sp + bitPos + (fuel + 1) ∧ sp + bitPos < limit := by omega
        rw [if_pos hc2]
        have hsub : sp + bitPos - sp = bitPos := by omega
        rw [hsub]
      · rw [upd_other _ _ _ _ hp]
        by_cases hc : sp + bitPos ≤ p ∧ p < sp + bitPos + (fuel + 1) ∧ p < limit
        · have hc' : sp + (bitPos + 1) ≤ p ∧ p < sp + (bitPos + 1) + fuel ∧ p < limit := by
            omega
          rw [if_pos hc', if_pos hc]
        · have hc' : ¬(sp + (bitPos + 1) ≤ p ∧ p < sp + (bitPos + 1) + fuel ∧ p < limit) := by
            omega
          rw [if_neg hc', if_neg hc]

/-- The collision accumulator never decreases. -/
theorem drawBits_col_mono (fuel : Nat) :
    ∀ (screen : Nat → Nat) (col sp limit b bitPos : Nat),
      col ≤ (drawBits screen col sp limit b bitPos fuel).2 := by
  induction fuel with
  | zero =>
    intro screen col sp limit b bitPos
    rw [drawBits]
  | succ fuel ih =>
    intro screen col sp limit b bitPos
    simp only [drawBits]
    by_cases hbreak : limit ≤ sp + bitPos
    · rw [if_pos hbreak]
    · rw [if_neg hbreak]
      exact le_trans (Nat.le_max_left _ _) (ih _ _ _ _ _ _)

/-- The collision accumulator stays within `max col 1`. -/
theorem drawBits_col_le (fuel : Nat) :
    ∀ (screen : Nat → Nat) (col sp limit b bitPos : Nat),
      (drawBits screen col sp limit b bitPos fuel).2 ≤ max col 1 := by
  induction fuel with
  | zero =>
    intro screen col sp limit b bitPos
    rw [drawBits]
    exact Nat.le_max_left _ _
  | succ fuel ih =>
    intro screen col sp limit b bitPos
    simp only [drawBits]
    by_cases hbreak : limit ≤ sp + bitPos
    · rw [if_pos hbreak]
      exact Nat.le_max_left _ _
    · rw [if_neg hbreak]
      refine le_trans (ih _ _ _ _ _ _) ?_
      have hpb : screen (sp + bitPos) % 2 * (b / 2 ^ (7 - bitPos) % 2) ≤ 1 := by
        have h1 : screen (sp + bitPos) % 2 ≤ 1 := by omega
        have h2 : b / 2 ^ (7 - bitPos) % 2 ≤ 1 := by omega
        calc screen (sp + bitPos) % 2 * (b / 2 ^ (7 - bitPos) % 2) ≤ 1 * 1 :=
              Nat.mul_le_mul h1 h2
          _ = 1 := by norm_num
      omega

/-- If some un-clipped bit of the sprite byte is 1 over a lit pixel, the
collision accumulator reaches 1. -/
theorem drawBits_col_hit (fuel : Nat) :
    ∀ (screen : Nat → Nat) (col sp limit b bitPos k : Nat),
      bitPos ≤ k → k < bitPos + fuel → sp + k < limit →
      screen (sp + k) % 2 = 1 → b / 2 ^ (7 - k) % 2 = 1 →
      1 ≤ (drawBits screen col sp limit b bitPos fuel).2 := by
  induction fuel with
  | zero =>
    intro screen col sp limit b bitPos k h1 h2
    omega
  | succ fuel ih =>
    intro screen col sp limit b bitPos k h1 h2 h3 h4 h5
    simp only [drawBits]
    have hbreak : ¬(limit ≤ sp + bitPos) := by omega
    rw [if_neg hbreak]
    by_cases hk : k = bitPos
    · subst hk
      have hcol : 1 ≤ max col (screen (sp + k) % 2 * (b / 2 ^ (7 - k) % 2)) := by
        rw [h4, h5]
        omega
      exact le_trans hcol (drawBits_col_mono _ _ _ _ _ _ _)
    · refine ih _ _ _ _ _ _ k (by omega) (by omega) h3 ?_ h5
      rw [upd_other _ _ _ _ (by omega : sp + k ≠ sp + bitPos)]
      exact h4

/-- A one-row draw is a single pass of the inner loop. -/
theorem drawRows_one (mem s : Nat → Nat) (col xp yp addr : Nat) :
    drawRows mem s col xp yp addr 1 =
      drawBits s col (xp + yp * SCREEN_WIDTH) ((yp + 1) * SCREEN_WIDTH) (mem addr) 0 8 := rfl

/-- Any pixel changed by an n-row draw lies at column ≥ xPos (horizontal
clipping: nothing wraps to columns left of the origin) and on one of the n
rows `(yPos + r) % 32` (vertical wrap-around). -/
theorem drawRows_screen_subset (rows : Nat) :
    ∀ (mem s : Nat → Nat) (col xp yp addr p : Nat),
      xp < 64 → yp < 32 →
      (drawRows mem s col xp yp addr rows).1 p ≠ s p →
      xp ≤ p % 64 ∧ ∃ r, r < rows ∧ p / 64 = (yp + r) % 32 := by
  induction rows with
  | zero =>
    intro mem s col xp yp addr p hxp hyp hne
    exact absurd rfl hne
  | succ rows ih =>
    intro mem s col xp yp addr p hxp hyp hne
    simp only [drawRows] at hne
    by_cases hmid :
        (drawBits s col (xp + yp * SCREEN_WIDTH) ((yp + 1) * SCREEN_WIDTH) (mem addr) 0 8).1 p
          = s p
    · have hne2 : (drawRows mem
          (drawBits s col (xp + yp * SCREEN_WIDTH) ((yp + 1) * SCREEN_WIDTH) (mem addr) 0 8).1
          (drawBits s col (xp + yp * SCREEN_WIDTH) ((yp + 1) * SCREEN_WIDTH) (mem addr) 0 8).2
          xp ((yp + 1) % 32) (addr + 1) rows).1 p
          ≠ (drawBits s col (xp + yp * SCREEN_WIDTH) ((yp + 1) * SCREEN_WIDTH)
              (mem addr) 0 8).1 p := by
        rw [hmid]
        exact hne
      obtain ⟨h1, rr, hrr, hrow⟩ := ih mem _ _ xp ((yp + 1) % 32) (addr + 1) p hxp
        (by omega) hne2
      refine ⟨h1, rr + 1, by omega, ?_⟩
      rw [hrow]
      omega
    · have hch := drawBits_screen 8 s col (xp + yp * SCREEN_WIDTH)
        ((yp + 1) * SCREEN_WIDTH) (mem addr) 0 p
      rw [SCREEN_WIDTH] at hch
      by_cases hcond : xp + yp * 64 + 0 ≤ p ∧ p < xp + yp * 64 + 0 + 8 ∧ p < (yp + 1) * 64
      · refine ⟨by omega, 0, by omega, by omega⟩
      · exfalso
        apply hmid
        rw [SCREEN_WIDTH, hch, if_neg hcond]

/-! ### C7: drawing the same one-row sprite twice at the same position -/

def drawDemo : Chip8 := { withProg [0xD0, 0x11, 0xD0, 0x11] with i := 0x300 }

set_option maxHeartbeats 4000000

/-- C7 counterexample: the all-zero one-row sprite drawn twice at (0, 0)
leaves VF = 0 after the second draw — "the second draw sets VF to 1" does
not hold for every 8-bit-wide sprite. -/
theorem draw_twice_vf_not_always_one :
    Option.map (fun c2 => c2.v 0xF)
        ((drawDemo.tick 0).bind fun c1 => c1.tick 0) = some 0 ∧ (0 : Nat) ≠ 1 := by
  decide

set_option maxHeartbeats 200000

/-- C7 amended: for a binary framebuffer, drawing the same 1-row sprite
twice at the same (Vx, Vy) restores every pixel to its prior value, and the
second draw sets VF = 1 provided at least one sprite bit is 1, un-clipped
(lands left of column 64), and targets a pixel that was off before the first
draw; with no such bit (e.g. the zero sprite) VF is not forced to 1. -/
theorem draw_twice_restores (c : Chip8) (r1 r2 x y : Nat)
    (hx : x < 15) (hy : y < 15)
    (hscreen : ∀ p, c.screen p = 0 ∨ c.screen p = 255)
    (hb : c.i + 1 ≤ MEM_SIZE)
    (hf1 : c.fetch c.pc = some (0xD000 + 256 * x + 16 * y + 1))
    (hf2 : c.fetch (c.pc + 2) = some (0xD000 + 256 * x + 16 * y + 1)) :
    (∀ p, Option.map (fun c2 => c2.screen p) ((c.tick r1).bind fun c1 => c1.tick r2)
        = some (c.screen p)) ∧
    ((∃ k, k < 8 ∧ c.v x % 64 + k < 64 ∧ c.memory c.i / 2 ^ (7 - k) % 2 = 1 ∧
        c.screen (c.v x % 64 + k + (c.v y % 32) * 64) = 0) →
      Option.map (fun c2 => c2.v 0xF) ((c.tick r1).bind fun c1 => c1.tick r2)
        = some 1) := by
  rw [tick_draw c r1 x y 1 (by omega) (by omega) (by norm_num) hb hf1]
  simp only [Option.some_bind]
  set R1 := drawRows c.memory c.screen 0 (c.v x % 64) (c.v y % 32) c.i 1 with hR1
  set c1 : Chip8 := { c with screen_updated := true, pc := c.pc + 2,
                             v := upd c.v 0xF R1.2, screen := R1.1 } with hc1
  have hb1 : c1.i + 1 ≤ MEM_SIZE := hb
  have hf2' : c1.fetch c1.pc = some (0xD000 + 256 * x + 16 * y + 1) := hf2
  rw [tick_draw c1 r2 x y 1 (by omega) (by omega) (by norm_num) hb1 hf2']
  simp only [Option.map_some']
  set R2 := drawRows c1.memory c1.screen 0 (c1.v x % 64) (c1.v y % 32) c1.i 1 with hR2
  have e_mem : c1.memory = c.memory := rfl
  have e_scr : c1.screen = R1.1 := rfl
  have e_i : c1.i = c.i := rfl
  have e_vx : c1.v x = c.v x := upd_other _ _ _ _ (by omega)
  have e_vy : c1.v y = c.v y := upd_other _ _ _ _ (by omega)
  rw [e_mem, e_scr, e_i, e_vx, e_vy] at hR2
  constructor
  · intro p
    refine congrArg some ?_
    show R2.1 p = c.screen p
    rw [hR2, hR1]
    simp only [drawRows_one, SCREEN_WIDTH]
    simp only [drawBits_screen]
    by_cases hcond : c.v x % 64 + c.v y % 32 * 64 + 0 ≤ p ∧
        p < c.v x % 64 + c.v y % 32 * 64 + 0 + 8 ∧ p < (c.v y % 32 + 1) * 64
    · simp only [if_pos hcond]
      rcases hscreen p with h0 | h255 <;> omega
    · simp only [if_neg hcond]
  · rintro ⟨k, hk8, hclip, hbit, hoff⟩
    refine congrArg some ?_
    show upd c1.v 0xF R2.2 0xF = 1
    rw [upd_same, hR2, hR1]
    simp only [drawRows_one, SCREEN_WIDTH]
    refine le_antisymm ?_ ?_
    · exact (drawBits_col_le 8 _ 0 _ _ _ 0).trans (by norm_num)
    · have hpix : (drawBits c.screen 0 (c.v x % 64 + c.v y % 32 * 64)
          ((c.v y % 32 + 1) * 64) (c.memory c.i) 0 8).1
            (c.v x % 64 + c.v y % 32 * 64 + k) % 2 = 1 := by
        rw [drawBits_screen]
        have hcondk : c.v x % 64 + c.v y % 32 * 64 + 0 ≤ c.v x % 64 + c.v y % 32 * 64 + k ∧
            c.v x % 64 + c.v y % 32 * 64 + k < c.v x % 64 + c.v y % 32 * 64 + 0 + 8 ∧
            c.v x % 64 + c.v y % 32 * 64 + k < (c.v y % 32 + 1) * 64 := by
          omega
        rw [if_pos hcondk]
        have hsub : c.v x % 64 + c.v y % 32 * 64 + k - (c.v x % 64 + c.v y % 32 * 64) = k := by
          omega
        rw [hsub, hbit]
        have hoff2 : c.screen (c.v x % 64 + c.v y % 32 * 64 + k) = 0 := by
          have hcomm : c.v x % 64 + k + c.v y % 32 * 64
              = c.v x % 64 + c.v y % 32 * 64 + k := by omega
          rw [← hcomm]
          exact hoff
        rw [hoff2]
      exact drawBits_col_hit 8 _ 0 (c.v x % 64 + c.v y % 32 * 64) ((c.v y % 32 + 1) * 64)
        (c.memory c.i) 0 k (by omega) (by omega) (by omega) hpix hbit

/-! ### C8: clipping at column 63 and vertical wrap for a draw at x = 60 -/

/-- C8: during a Dxyn with drawing origin column 60 (Vx ≡ 60 mod 64) every
pixel the draw changes lies in columns 60–63 — the sprite bits that would
land past column 63 are clipped, never wrapped to column 0 — and on one of
the rows `(Vy mod 32 + r) mod 32` for r < n (the row position wraps modulo
32 as rows are drawn). -/
theorem draw_clip_and_vwrap (c : Chip8) (rand x y n : Nat)
    (hx : x < 16) (hy : y < 16) (hn : n < 16)
    (hb : c.i + n ≤ MEM_SIZE)
    (hx60 : c.v x % 64 = 60)
    (hf : c.fetch c.pc = some (0xD000 + 256 * x + 16 * y + n)) :
    ∀ c', c.tick rand = some c' → ∀ p, c'.screen p ≠ c.screen p →
      60 ≤ p % 64 ∧ ∃ r, r < n ∧ p / 64 = (c.v y % 32 + r) % 32 := by
  intro c' ht p hne
  rw [tick_draw c rand x y n hx hy hn hb hf] at ht
  injection ht with ht
  subst ht
  have h := drawRows_screen_subset n c.memory c.screen 0 (c.v x % 64) (c.v y % 32) c.i p
    (Nat.mod_lt _ (by norm_num)) (Nat.mod_lt _ (by norm_num)) hne
  rw [hx60] at h
  exact h

def drawHitDemo : Chip8 :=
  let base := withProg [0xD0, 0x11, 0xD0, 0x11]
  { base with memory := writeBytes base.memory 0x300 [0xA5], i := 0x300 }

set_option maxHeartbeats 4000000

/-- C7 witness: sprite byte 0xA5 drawn twice at (0, 0) on a blank screen:
pixel 0 is restored and the second draw reports a collision. -/
theorem draw_twice_restores_witness :
    Option.map (fun c2 => c2.screen 0) ((drawHitDemo.tick 0).bind fun c1 => c1.tick 0)
      = some (drawHitDemo.screen 0) ∧
    Option.map (fun c2 => c2.v 0xF) ((drawHitDemo.tick 0).bind fun c1 => c1.tick 0)
      = some 1 := by
  have h := draw_twice_restores drawHitDemo 0 0 0 1 (by norm_num) (by norm_num)
    (fun p => Or.inl rfl) (by decide) (by decide) (by decide)
  exact ⟨h.1 0, h.2 ⟨0, by norm_num, by decide, by decide, by decide⟩⟩

def clipDemo : Chip8 :=
  let base := withProg [0xD0, 0x12]
  { base with memory := writeBytes base.memory 0x300 [0xFF, 0xFF], i := 0x300,
              v := upd (upd (fun _ => 0) 0 60) 1 31 }

/-- C8 witness: `D012` drawn from (60, 31) changes pixel 2044 = (60, 31),
and the theorem places every changed pixel at a column ≥ 60. -/
theorem draw_clip_and_vwrap_witness : 60 ≤ 2044 % 64 := by
  have ht := tick_draw clipDemo 0 0 1 2 (by norm_num) (by norm_num) (by norm_num)
    (by decide) (by decide)
  exact (draw_clip_and_vwrap clipDemo 0 0 1 2 (by norm_num) (by norm_num) (by norm_num)
    (by decide) (by decide) (by decide) _ ht 2044 (by decide)).1

set_option maxHeartbeats 200000

end Rusty8
